import Mathlib

/-
  Verification of the core risk engine of the global_risk_dashboard repository
  (src/risk_engine.py with constants from src/config.py).

  Embedding conventions:
  * A pandas DataFrame of returns is a Panel: a date index (strictly
    increasing naturals) together with an ordered association list of
    columns; a cell is an Option over the rationals, none standing for NaN.
  * The sklearn Ridge fit is an external library call; it is modelled as an
    abstract parameter of type Fit that can either return a coefficient
    vector plus intercept or fail, mirroring a raised exception.
  * Engine state (the betas mapping and the success counter) is passed
    explicitly: run_rolling_regression maps an engine to an Except of an
    engine, an error meaning the Python call raised.
-/

namespace RiskDash

/-- A cell of a return panel: none models a pandas NaN / missing value. -/
abbrev Val := Option ℚ

/-- A date-indexed table of return series, as produced by the data loader.
Dates are abstract naturals; entries is the ordered list of columns, each
column a list of cells parallel to the date index. -/
structure Panel where
  dates : List Nat
  entries : List (String × List Val)
deriving DecidableEq

/-- First-match association-list lookup, the semantics of indexing a
DataFrame by column name (and of Python dict lookup). -/
def lookupA {β : Type} (k : String) : List (String × β) → Option β
  | [] => none
  | p :: rest => if p.1 = k then some p.2 else lookupA k rest

/-- The column names of a panel, in order (DataFrame.columns). -/
def Panel.colNames (P : Panel) : List String := P.entries.map (·.1)

/-- The cells of a named column; a missing column gives the empty list. -/
def Panel.colVals (P : Panel) (c : String) : List Val := (lookupA c P.entries).getD []

/-- Cell of column c at row position i (positional indexing into the date
index); out of range gives none, matching a missing observation. -/
def cellAt (P : Panel) (c : String) (i : Nat) : Val := (P.colVals c).getD i none

/-- Number of non-missing cells of a column (Series.notna().sum()). -/
def countSome (l : List Val) : Nat := l.countP (fun v => v.isSome)

/-- Well-formed panel: every column is parallel to the date index, the date
index is strictly increasing (no duplicate dates), and column names are
unique, as pandas guarantees for the loader output. -/
def Panel.WF (P : Panel) : Prop :=
  (∀ p ∈ P.entries, p.2.length = P.dates.length) ∧
  P.dates.Pairwise (· < ·) ∧ P.colNames.Nodup

instance (P : Panel) : Decidable P.WF :=
  inferInstanceAs (Decidable ((∀ p ∈ P.entries, p.2.length = P.dates.length) ∧
    P.dates.Pairwise (· < ·) ∧ P.colNames.Nodup))

-- ---------------------------------------------------------------------
-- Constants from src/config.py
-- ---------------------------------------------------------------------

/-- GLOBAL_FACTORS from config.py. -/
def GLOBAL_FACTORS : List String := ["^VIX", "^TNX", "CL=F", "HG=F"]

/-- US_TIMED_FACTORS from config.py: factors that trade in US time and need
lagging for Asia (a Python set; only membership is ever used). -/
def US_TIMED_FACTORS : List String :=
  GLOBAL_FACTORS ++ ["EWJ", "EWY", "EWH", "MCHI", "FXI"]

/-- IDX_PREF from config.py, with the Python dict .get(reg, []) default. -/
def IDX_PREF (reg : String) : List String :=
  if reg = "JP" then ["^N225", "EWJ"]
  else if reg = "KR" then ["^KS11", "EWY"]
  else if reg = "HK" then ["^HSI", "EWH"]
  else if reg = "CN" then ["MCHI", "FXI"]
  else []

/-- FX_PREF from config.py; note there is no entry for HK, so .get gives []. -/
def FX_PREF (reg : String) : List String :=
  if reg = "JP" then ["JPY=X"]
  else if reg = "KR" then ["KRW=X"]
  else if reg = "CN" then ["CNY=X"]
  else []

/-- The four Asian regions that receive the timezone lag. -/
def asiaList : List String := ["JP", "KR", "HK", "CN"]

-- ---------------------------------------------------------------------
-- Region classifier (RiskEngine.infer_region)
-- ---------------------------------------------------------------------

/-- Python str.endswith: the suffix characters are a suffix of the string,
expressed through reversed prefix so that proofs can peel characters. -/
def endswith (s suf : String) : Bool := suf.data.reverse.isPrefixOf s.data.reverse

/-- RiskEngine.infer_region from risk_engine.py: suffix checks in source
order, anything unrecognized mapping to OTHER. -/
def infer_region (tkr : String) : String :=
  if endswith tkr ".T" then "JP"
  else if endswith tkr ".KS" then "KR"
  else if endswith tkr ".HK" then "HK"
  else if endswith tkr ".SS" || endswith tkr ".SZ" then "CN"
  else "OTHER"

-- ---------------------------------------------------------------------
-- Factor selection and design matrix (RiskEngine.get_X_for_ticker)
-- ---------------------------------------------------------------------

/-- The first preference-list entry available in the factor panel, as a
zero-or-one element list (the for/break loop of the source). -/
def firstAvail (pref avail : List String) : List String :=
  match pref.find? (fun c => avail.contains c) with
  | some c => [c]
  | none => []

/-- The ordered column selection of get_X_for_ticker steps 1-3: at most one
local index, at most one local currency, then the available global factors
in canonical order. -/
def selectCols (reg : String) (avail : List String) : List String :=
  firstAvail (IDX_PREF reg) avail ++ firstAvail (FX_PREF reg) avail ++
    GLOBAL_FACTORS.filter (fun g => avail.contains g)

/-- Series.shift(1): first cell becomes missing, every other cell takes the
previous value; an empty series stays empty. -/
def shift1 (v : List Val) : List Val :=
  match v with
  | [] => []
  | _ :: _ => none :: v.dropLast

/-- Lag transform of one selected column entry: US-timed columns are
shifted by one period, others are untouched. -/
def lagEntry (p : String × List Val) : String × List Val :=
  if p.1 ∈ US_TIMED_FACTORS then (p.1, shift1 p.2) else p

/-- The selected columns of the factor panel as raw entries. -/
def mkX0 (F : Panel) (cols : List String) : List (String × List Val) :=
  cols.map (fun c => (c, F.colVals c))

/-- Step 2 of get_X_for_ticker: for Asian regions shift every US-timed
column by one period (the emptiness guard on lag_cols in the source is a
no-op and is dropped). -/
def laggedCols (reg : String) (l : List (String × List Val)) : List (String × List Val) :=
  if reg ∈ asiaList then l.map lagEntry else l

/-- The value a selected column holds after the optional lag, as a
standalone function of the source panel. -/
def laggedColVals (F : Panel) (reg c : String) : List Val :=
  if reg ∈ asiaList ∧ c ∈ US_TIMED_FACTORS then shift1 (F.colVals c) else F.colVals c

/-- RiskEngine.get_X_for_ticker from risk_engine.py: select columns by
region preference, lag US-timed columns for Asian regions, then drop any
column whose non-missing coverage is below 0.85 (an all-missing comparison
over an empty index is false in pandas, hence the positivity conjunct). -/
def get_X_for_ticker (F : Panel) (tkr : String) : Panel :=
  let reg := infer_region tkr
  let cols := selectCols reg F.colNames
  let X1 := laggedCols reg (mkX0 F cols)
  let n := F.dates.length
  ⟨F.dates, X1.filter (fun p => decide (0 < n) && decide (85 * n ≤ 100 * countSome p.2))⟩

-- ---------------------------------------------------------------------
-- Basic lemmas about the association-list structure
-- ---------------------------------------------------------------------

theorem lookupA_eq_of_all {β : Type} {l : List (String × β)} {c : String} {v : β}
    (hall : ∀ p ∈ l, p.1 = c → p.2 = v) (hmem : c ∈ l.map (·.1)) :
    lookupA c l = some v := by
  induction l with
  | nil => simp at hmem
  | cons p rest ih =>
    by_cases h : p.1 = c
    · simp only [lookupA, if_pos h]
      exact congrArg some (hall p (by simp) h)
    · simp only [lookupA, if_neg h]
      refine ih (fun q hq hq1 => hall q (by simp [hq]) hq1) ?_
      rcases List.mem_map.mp hmem with ⟨q, hq, hq1⟩
      rcases List.mem_cons.mp hq with hq2 | hq2
      · exact absurd (hq2 ▸ hq1) h
      · exact List.mem_map.mpr ⟨q, hq2, hq1⟩

/-- Every entry of the lagged selection with name c carries the lagged
column value of c. -/
theorem laggedCols_entry_eq {F : Panel} {reg : String} {cols : List String}
    {p : String × List Val} (hp : p ∈ laggedCols reg (mkX0 F cols)) :
    p.1 ∈ cols ∧ p.2 = laggedColVals F reg p.1 := by
  unfold laggedCols at hp
  by_cases ha : reg ∈ asiaList
  · rw [if_pos ha] at hp
    rcases List.mem_map.mp hp with ⟨q, hq, rfl⟩
    rcases List.mem_map.mp hq with ⟨c, hc, rfl⟩
    unfold lagEntry laggedColVals
    by_cases hu : c ∈ US_TIMED_FACTORS
    · simp [hu, ha]; exact hc
    · simp [hu, ha]; exact hc
  · rw [if_neg ha] at hp
    rcases List.mem_map.mp hp with ⟨c, hc, rfl⟩
    unfold laggedColVals
    simp [ha]
    exact hc

theorem laggedCols_mem {F : Panel} {reg : String} {cols : List String}
    {c : String} (hc : c ∈ cols) :
    (c, laggedColVals F reg c) ∈ laggedCols reg (mkX0 F cols) := by
  unfold laggedCols laggedColVals
  by_cases ha : reg ∈ asiaList
  · rw [if_pos ha]
    refine List.mem_map.mpr ⟨(c, F.colVals c), List.mem_map.mpr ⟨c, hc, rfl⟩, ?_⟩
    unfold lagEntry
    by_cases hu : c ∈ US_TIMED_FACTORS
    · simp [hu, ha]
    · simp [hu, ha]
  · rw [if_neg ha]
    simp [ha]
    exact List.mem_map.mpr ⟨c, hc, rfl⟩

theorem laggedCols_names (F : Panel) (reg : String) (cols : List String) :
    (laggedCols reg (mkX0 F cols)).map (·.1) = cols := by
  unfold laggedCols
  by_cases ha : reg ∈ asiaList
  · rw [if_pos ha, List.map_map]
    unfold mkX0
    rw [List.map_map]
    have : ((fun p : String × List Val => p.1) ∘ lagEntry) ∘ (fun c => (c, F.colVals c)) = id := by
      funext c
      simp only [Function.comp_apply, lagEntry]
      by_cases hu : c ∈ US_TIMED_FACTORS <;> simp [hu]
    rw [this, List.map_id]
  · rw [if_neg ha]
    unfold mkX0
    rw [List.map_map]
    have : ((·.1) : String × List Val → String) ∘ (fun c => (c, F.colVals c)) = id := rfl
    rw [this, List.map_id]

/-- The column names of a design matrix form a sublist of the region
selection, in the original selection order. -/
theorem get_X_colNames_sublist (F : Panel) (tkr : String) :
    (get_X_for_ticker F tkr).colNames.Sublist
      (selectCols (infer_region tkr) F.colNames) := by
  unfold get_X_for_ticker Panel.colNames
  have h := List.filter_sublist (l := laggedCols (infer_region tkr)
    (mkX0 F (selectCols (infer_region tkr) F.colNames)))
    (p := fun p => decide (0 < F.dates.length) &&
      decide (85 * F.dates.length ≤ 100 * countSome p.2))
  have h2 := h.map (f := (·.1))
  rwa [laggedCols_names] at h2

/-- Membership of a selected column in the final design matrix is exactly
the coverage condition on its lagged values. -/
theorem get_X_mem_iff {F : Panel} {tkr c : String}
    (hc : c ∈ selectCols (infer_region tkr) F.colNames) :
    c ∈ (get_X_for_ticker F tkr).colNames ↔
      0 < F.dates.length ∧
      85 * F.dates.length ≤ 100 * countSome (laggedColVals F (infer_region tkr) c) := by
  unfold get_X_for_ticker Panel.colNames
  constructor
  · intro h
    rcases List.mem_map.mp h with ⟨p, hp, rfl⟩
    rcases List.mem_filter.mp hp with ⟨hp1, hp2⟩
    rcases laggedCols_entry_eq hp1 with ⟨_, hval⟩
    rw [hval] at hp2
    simpa using hp2
  · intro ⟨h1, h2⟩
    refine List.mem_map.mpr ⟨(c, laggedColVals F (infer_region tkr) c), ?_, rfl⟩
    refine List.mem_filter.mpr ⟨laggedCols_mem hc, ?_⟩
    simpa using ⟨h1, h2⟩

/-- The stored values of any column present in the design matrix. -/
theorem get_X_colVals {F : Panel} {tkr c : String}
    (hc : c ∈ (get_X_for_ticker F tkr).colNames) :
    (get_X_for_ticker F tkr).colVals c = laggedColVals F (infer_region tkr) c := by
  unfold Panel.colVals
  have hall : ∀ p ∈ (get_X_for_ticker F tkr).entries, p.1 = c →
      p.2 = laggedColVals F (infer_region tkr) c := by
    intro p hp hpc
    unfold get_X_for_ticker at hp
    simp only at hp
    rcases List.mem_filter.mp hp with ⟨hp1, _⟩
    rcases laggedCols_entry_eq hp1 with ⟨_, hval⟩
    rw [hval, hpc]
  rw [lookupA_eq_of_all hall hc]
  rfl

theorem selectCols_sub_avail {reg : String} {avail : List String} {c : String}
    (hc : c ∈ selectCols reg avail) : c ∈ avail := by
  unfold selectCols at hc
  rcases List.mem_append.mp hc with h | h
  · rcases List.mem_append.mp h with h | h
    all_goals {
      unfold firstAvail at h
      rcases hfind : List.find? (fun c => avail.contains c) _ with _ | d
      · rw [hfind] at h; simp at h
      · rw [hfind] at h
        simp at h
        subst h
        have := List.find?_some hfind
        simpa using this
    }
  · have := List.of_mem_filter h
    simpa using this

theorem firstAvail_subset {pref avail : List String} {c : String}
    (hc : c ∈ firstAvail pref avail) : c ∈ pref := by
  unfold firstAvail at hc
  rcases hfind : List.find? (fun c => avail.contains c) pref with _ | d
  · rw [hfind] at hc; simp at hc
  · rw [hfind] at hc
    simp at hc
    subst hc
    exact List.mem_of_find?_eq_some hfind

theorem firstAvail_length (pref avail : List String) :
    (firstAvail pref avail).length ≤ 1 := by
  unfold firstAvail
  rcases List.find? (fun c => avail.contains c) pref with _ | d <;> simp

-- ---------------------------------------------------------------------
-- The engine state and the rolling regression (RiskEngine.run_rolling_regression)
-- ---------------------------------------------------------------------

/-- One fitted coefficient row: factor name to coefficient, ending with the
Intercept entry. -/
abbrev BetaRow := List (String × ℚ)

/-- A beta time series: one (date, row) pair per fitted window. -/
abbrev BetaSeries := List (Nat × BetaRow)

/-- The abstract interface of sklearn Ridge(alpha=1.0).fit on one training
window: given the X rows and the y cells it either yields the coefficient
vector plus intercept or fails, a failure standing for a raised exception. -/
abbrev Fit := List (List Val) → List Val → Except String (List ℚ × ℚ)

/-- The mutable state of a RiskEngine object (fields set in __init__). -/
structure RiskEngine where
  stock_rets : Panel
  factor_rets : Panel
  window : Nat
  betas : List (String × BetaSeries)
  r2 : List (String × ℚ)
  model_success_count : Nat
deriving DecidableEq

/-- RiskEngine.__init__: stores the two panels and the window, with empty
result maps and a zero success counter. -/
def RiskEngine.init (s f : Panel) (w : Nat) : RiskEngine := ⟨s, f, w, [], [], 0⟩

/-- Python dict assignment d[k] = v: replace the value in place if the key
exists, otherwise append the binding at the end. -/
def insertA {β : Type} (m : List (String × β)) (k : String) (v : β) : List (String × β) :=
  match m with
  | [] => [(k, v)]
  | p :: rest => if p.1 = k then (k, v) :: rest else p :: insertA rest k v

/-- The date labels of a panel rows on which a single column is non-missing
(Series.dropna().index). -/
def validColDates (P : Panel) (c : String) : List Nat :=
  (List.range P.dates.length).filterMap
    (fun j => if ((P.colVals c).getD j none).isSome then some (P.dates.getD j 0) else none)

/-- The date labels of a panel rows with no missing cell in any column
(DataFrame.dropna().index); a zero-column frame keeps every row, exactly as
pandas does. -/
def validAllDates (P : Panel) : List Nat :=
  (List.range P.dates.length).filterMap
    (fun j => if P.entries.all (fun p => ((p.2).getD j none).isSome)
              then some (P.dates.getD j 0) else none)

/-- The aligned date index of one asset: the intersection of the dropna
index of its return series with the dropna index of its design matrix.
For well-formed (strictly increasing, duplicate-free) indexes this filter
is the sorted intersection that pandas Index.intersection returns. -/
def alignedDates (E : RiskEngine) (tkr : String) : List Nat :=
  (validColDates E.stock_rets tkr).filter
    (fun d => (validAllDates (get_X_for_ticker E.factor_rets tkr)).contains d)

/-- Positional row slice [a, b) of a list of rows (DataFrame.iloc). -/
def trainSlice {α : Type} (rows : List α) (a b : Nat) : List α :=
  (rows.drop a).take (b - a)

/-- The aligned design-matrix rows of one asset (X_aligned = X.loc[common],
row by row in aligned-date order). -/
def alignedXrows (E : RiskEngine) (tkr : String) : List (List Val) :=
  (alignedDates E tkr).map (fun d =>
    (get_X_for_ticker E.factor_rets tkr).colNames.map (fun c =>
      cellAt (get_X_for_ticker E.factor_rets tkr) c
        ((get_X_for_ticker E.factor_rets tkr).dates.indexOf d)))

/-- The aligned return cells of one asset (y_aligned = y.loc[common]). -/
def alignedYvals (E : RiskEngine) (tkr : String) : List Val :=
  (alignedDates E tkr).map (fun d =>
    cellAt E.stock_rets tkr (E.stock_rets.dates.indexOf d))

/-- The inner rolling loop: for each index i in the given list, fit the
ridge model on rows [i - window, i) and record the coefficient row labeled
with the aligned date at position i; a fit failure aborts with the raised
error, exactly as the unguarded Python loop does. -/
def fitLoop (fit : Fit) (Xrows : List (List Val)) (yvals : List Val)
    (xcols : List String) (com : List Nat) (w : Nat) :
    List Nat → Except String BetaSeries
  | [] => Except.ok []
  | i :: is =>
    match fit (trainSlice Xrows (i - w) i) (trainSlice yvals (i - w) i) with
    | Except.error e => Except.error e
    | Except.ok cb =>
      match fitLoop fit Xrows yvals xcols com w is with
      | Except.error e => Except.error e
      | Except.ok rest =>
        Except.ok ((com.getD i 0, xcols.zip cb.1 ++ [("Intercept", cb.2)]) :: rest)

/-- The per-ticker body of run_rolling_regression: skip OTHER regions,
align, skip short histories, run the rolling loop over the index range
[window, n), and only keep an asset that produced at least one row.  The
result is none when a continue branch fires or no row was produced. -/
def rollingOne (E : RiskEngine) (fit : Fit) (tkr : String) :
    Except String (Option BetaSeries) :=
  if infer_region tkr = "OTHER" then Except.ok none
  else if (alignedDates E tkr).length < E.window then Except.ok none
  else
    match fitLoop fit (alignedXrows E tkr) (alignedYvals E tkr)
        (get_X_for_ticker E.factor_rets tkr).colNames (alignedDates E tkr) E.window
        ((List.range ((alignedDates E tkr).length - E.window)).map
          (fun k => E.window + k)) with
    | Except.error e => Except.error e
    | Except.ok rows =>
      if rows.isEmpty then Except.ok none else Except.ok (some rows)

/-- The ticker loop of run_rolling_regression, threading the betas dict and
the success counter; an exception from any fit propagates out. -/
def goRun (E : RiskEngine) (fit : Fit) :
    List String → List (String × BetaSeries) → Nat →
    Except String (List (String × BetaSeries) × Nat)
  | [], m, cnt => Except.ok (m, cnt)
  | tkr :: rest, m, cnt =>
    match rollingOne E fit tkr with
    | Except.error e => Except.error e
    | Except.ok none => goRun E fit rest m cnt
    | Except.ok (some bs) => goRun E fit rest (insertA m tkr bs) (cnt + 1)

/-- RiskEngine.run_rolling_regression from risk_engine.py, as a state
transformer: an ok result is the engine with the betas dict and success
counter updated; an error is a raised exception escaping the method. -/
def run_rolling_regression (E : RiskEngine) (fit : Fit) : Except String RiskEngine :=
  match goRun E fit E.stock_rets.colNames E.betas E.model_success_count with
  | Except.error e => Except.error e
  | Except.ok mc => Except.ok { E with betas := mc.1, model_success_count := mc.2 }

-- ---------------------------------------------------------------------
-- Scenario generation (RiskEngine.generate_coherent_scenario)
-- ---------------------------------------------------------------------

/-- Insertion sort on rationals, ascending; used for the quantile. -/
def insertQ (x : ℚ) : List ℚ → List ℚ
  | [] => [x]
  | y :: ys => if x ≤ y then x :: y :: ys else y :: insertQ x ys

def sortQ : List ℚ → List ℚ
  | [] => []
  | x :: xs => insertQ x (sortQ xs)

/-- The non-missing (date, value) pairs of one column, in index order
(Series.dropna with its index). -/
def dropnaCol (F : Panel) (c : String) : List (Nat × ℚ) :=
  (List.range F.dates.length).filterMap
    (fun j => match (F.colVals c).getD j none with
      | some v => some (F.dates.getD j 0, v)
      | none => none)

/-- Series.quantile(0.98) with the default linear interpolation: position
0.98 * (n - 1) in the sorted values, interpolating between the two
neighbouring order statistics; an empty series gives none (pandas NaN). -/
def quantile98 (l : List ℚ) : Option ℚ :=
  match l with
  | [] => none
  | _ :: _ =>
    let vs := sortQ l
    let n := vs.length
    let pos : ℚ := (98 * ((n : ℚ) - 1)) / 100
    let i : Nat := (Int.floor pos).toNat
    let lo := vs.getD i 0
    let hi := vs.getD (i + 1) lo
    some (lo + (pos - (i : ℚ)) * (hi - lo))

/-- The stress dates: dates of the dropna shock series whose value is at
least the 98th-percentile cutoff; a NaN cutoff (empty series) selects no
date, since every comparison with NaN is false. -/
def stressDates (F : Panel) (shock : String) : List Nat :=
  match quantile98 ((dropnaCol F shock).map (·.2)) with
  | none => []
  | some q => (dropnaCol F shock).filterMap
      (fun p => if q ≤ p.2 then some p.1 else none)

/-- Mean of the non-missing cells of a list, none when all are missing
(pandas mean with skipna over an empty or all-NaN selection is NaN). -/
def meanOpt (l : List Val) : Val :=
  let xs := l.filterMap id
  if xs.isEmpty then none else some (xs.sum / (xs.length : ℚ))

/-- Step 2 of generate_coherent_scenario: the mean move of every factor
column across the stress dates (DataFrame.loc[stress_dates].mean with
numeric_only, every column of the panel being numeric here). -/
def avg_moves (F : Panel) (shock : String) : List (String × Val) :=
  F.colNames.map (fun c =>
    (c, meanOpt ((stressDates F shock).map (fun d => cellAt F c (F.dates.indexOf d)))))

/-- The scale factor of step 3: shock_size over the stress-day average of
the shock factor itself, 1.0 when that average is exactly zero, and NaN
when the average is NaN (NaN == 0 is false and division by NaN gives NaN);
the dict .get default of 1.0 applies when the key is absent. -/
def scen_scaler (F : Panel) (shock : String) (size : ℚ) : Val :=
  match (lookupA shock (avg_moves F shock)).getD (some 1) with
  | none => none
  | some a => if a = 0 then some 1 else some (size / a)

/-- Elementwise product of a cell with the scaler, NaN-propagating. -/
def scale_val (m s : Val) : Val := do
  let mv ← m
  let sv ← s
  pure (mv * sv)

/-- RiskEngine.generate_coherent_scenario from risk_engine.py: empty map
when the shock factor is absent, otherwise every stress-day average scaled
by the common scale factor. -/
def generate_coherent_scenario (F : Panel) (shock : String) (size : ℚ) :
    List (String × Val) :=
  if shock ∈ F.colNames then
    (avg_moves F shock).map (fun p => (p.1, scale_val p.2 (scen_scaler F shock size)))
  else []

/-- get_X_for_ticker as a method call on the engine state: it reads the
factor panel and writes no attribute, so the state is returned unchanged
(the source works on a .copy() of the selected columns). -/
def get_X_state (E : RiskEngine) (tkr : String) : Panel × RiskEngine :=
  (get_X_for_ticker E.factor_rets tkr, E)

/-- generate_coherent_scenario as a method call on the engine state: it
reads the factor panel and writes no attribute. -/
def generate_scenario_state (E : RiskEngine) (shock : String) (size : ℚ) :
    List (String × Val) × RiskEngine :=
  ( generate_coherent_scenario E.factor_rets shock size, E)

-- ---------------------------------------------------------------------
-- Helper lemmas on character-list prefixes, for the suffix dispatch
-- ---------------------------------------------------------------------

theorem isPrefixOf_cons_iff {a : Char} {as r : List Char} :
    (a :: as).isPrefixOf r = true ↔ ∃ t, r = a :: t ∧ as.isPrefixOf t = true := by
  cases r with
  | nil => simp [List.isPrefixOf]
  | cons b t =>
    simp only [List.isPrefixOf, Bool.and_eq_true, beq_iff_eq]
    constructor
    · rintro ⟨rfl, h⟩; exact ⟨t, rfl, h⟩
    · rintro ⟨t2, ht, h⟩
      cases ht
      exact ⟨rfl, h⟩

theorem getD_dropLast {α : Type} (l : List α) (i : Nat) (d : α) (h : i + 1 < l.length) :
    l.dropLast.getD i d = l.getD i d := by
  rw [List.getD_eq_getElem?_getD, List.getD_eq_getElem?_getD, List.dropLast_eq_take,
    List.getElem?_take_of_lt (by omega)]

theorem shift1_getD_zero {v : List Val} (hv : v ≠ []) : (shift1 v).getD 0 none = none := by
  cases v with
  | nil => exact absurd rfl hv
  | cons a t => simp [shift1]

theorem shift1_getD_succ {v : List Val} {i : Nat} (h : i + 1 < v.length) :
    (shift1 v).getD (i + 1) none = v.getD i none := by
  cases v with
  | nil => simp at h
  | cons a t =>
    show (none :: (a :: t).dropLast).getD (i + 1) none = (a :: t).getD i none
    rw [List.getD_cons_succ]
    exact getD_dropLast _ _ _ h

-- ---------------------------------------------------------------------
-- Claim C8: total suffix dispatch of the region classifier
-- ---------------------------------------------------------------------

/-- Claim C8: infer_region is a total pure function on strings: every
identifier ending in .T maps to JP, .KS to KR, .HK to HK, .SS or .SZ to
CN, and every other identifier maps to OTHER, never failing. -/
theorem infer_region_total_cases (s : String) :
    (endswith s ".T" = true → infer_region s = "JP") ∧
    (endswith s ".KS" = true → infer_region s = "KR") ∧
    (endswith s ".HK" = true → infer_region s = "HK") ∧
    ((endswith s ".SS" = true ∨ endswith s ".SZ" = true) → infer_region s = "CN") ∧
    (endswith s ".T" = false → endswith s ".KS" = false → endswith s ".HK" = false →
      endswith s ".SS" = false → endswith s ".SZ" = false → infer_region s = "OTHER") := by
  refine ⟨?_, ?_, ?_, ?_, ?_⟩
  · intro h
    simp [infer_region, h]
  · intro h
    have hks : (['S', 'K', '.']).isPrefixOf s.data.reverse = true := h
    rcases isPrefixOf_cons_iff.mp hks with ⟨t, ht, _⟩
    have hT : endswith s ".T" = false := by
      show (['T', '.']).isPrefixOf s.data.reverse = false
      rw [ht]
      simp [List.isPrefixOf]
    simp [infer_region, hT, h]
  · intro h
    have hhk : (['K', 'H', '.']).isPrefixOf s.data.reverse = true := h
    rcases isPrefixOf_cons_iff.mp hhk with ⟨t, ht, _⟩
    have hT : endswith s ".T" = false := by
      show (['T', '.']).isPrefixOf s.data.reverse = false
      rw [ht]; simp [List.isPrefixOf]
    have hKS : endswith s ".KS" = false := by
      show (['S', 'K', '.']).isPrefixOf s.data.reverse = false
      rw [ht]; simp [List.isPrefixOf]
    simp [infer_region, hT, hKS, h]
  · intro h
    rcases h with h | h
    · have hss : (['S', 'S', '.']).isPrefixOf s.data.reverse = true := h
      rcases isPrefixOf_cons_iff.mp hss with ⟨t, ht, ht2⟩
      rcases isPrefixOf_cons_iff.mp ht2 with ⟨t2, ht3, _⟩
      subst ht3
      have hT : endswith s ".T" = false := by
        show (['T', '.']).isPrefixOf s.data.reverse = false
        rw [ht]; simp [List.isPrefixOf]
      have hKS : endswith s ".KS" = false := by
        show (['S', 'K', '.']).isPrefixOf s.data.reverse = false
        rw [ht]; simp [List.isPrefixOf]
      have hHK : endswith s ".HK" = false := by
        show (['K', 'H', '.']).isPrefixOf s.data.reverse = false
        rw [ht]; simp [List.isPrefixOf]
      simp [infer_region, hT, hKS, hHK, h]
    · have hsz : (['Z', 'S', '.']).isPrefixOf s.data.reverse = true := h
      rcases isPrefixOf_cons_iff.mp hsz with ⟨t, ht, _⟩
      have hT : endswith s ".T" = false := by
        show (['T', '.']).isPrefixOf s.data.reverse = false
        rw [ht]; simp [List.isPrefixOf]
      have hKS : endswith s ".KS" = false := by
        show (['S', 'K', '.']).isPrefixOf s.data.reverse = false
        rw [ht]; simp [List.isPrefixOf]
      have hHK : endswith s ".HK" = false := by
        show (['K', 'H', '.']).isPrefixOf s.data.reverse = false
        rw [ht]; simp [List.isPrefixOf]
      simp [infer_region, hT, hKS, hHK, h]
  · intro h1 h2 h3 h4 h5
    simp [infer_region, h1, h2, h3, h4, h5]

/-- C8 witness: the classifier at the spec examples. -/
theorem infer_region_total_cases_witness :
    infer_region "7203.T" = "JP" ∧ infer_region "9988.HK" = "HK" ∧
    infer_region "005930.KS" = "KR" ∧ infer_region "600519.SS" = "CN" ∧
    infer_region "XYZ" = "OTHER" :=
  ⟨(infer_region_total_cases "7203.T").1 (by decide),
   (infer_region_total_cases "9988.HK").2.2.1 (by decide),
   (infer_region_total_cases "005930.KS").2.1 (by decide),
   (infer_region_total_cases "600519.SS").2.2.2.1 (Or.inl (by decide)),
   (infer_region_total_cases "XYZ").2.2.2.2 (by decide) (by decide) (by decide)
     (by decide) (by decide)⟩

-- ---------------------------------------------------------------------
-- Claim C1: timezone lag alignment of the design matrix
-- ---------------------------------------------------------------------

theorem lookupA_mem_of_mem {β : Type} {l : List (String × β)} {c : String}
    (h : c ∈ l.map (·.1)) : ∃ p ∈ l, p.1 = c ∧ lookupA c l = some p.2 := by
  induction l with
  | nil => simp at h
  | cons p rest ih =>
    by_cases hp : p.1 = c
    · exact ⟨p, by simp, hp, by simp [lookupA, hp]⟩
    · rcases List.mem_map.mp h with ⟨q, hq, hq1⟩
      rcases List.mem_cons.mp hq with hq2 | hq2
      · exact absurd (hq2 ▸ hq1) hp
      · rcases ih (List.mem_map.mpr ⟨q, hq2, hq1⟩) with ⟨p2, hp2, hp21, hp22⟩
        exact ⟨p2, by simp [hp2], hp21, by simp [lookupA, hp, hp22]⟩

theorem colVals_length_of_WF {P : Panel} (hwf : P.WF) {c : String}
    (hc : c ∈ P.colNames) : (P.colVals c).length = P.dates.length := by
  rcases lookupA_mem_of_mem hc with ⟨p, hp, _, hlook⟩
  unfold Panel.colVals
  rw [hlook]
  exact hwf.1 p hp

/-- Claim C1 (amended): for a ticker of an Asian region, every US-timed
column of the design matrix is shifted by exactly one period relative to
the source factor panel (the first row becoming missing), and every column
that is not US-timed is never shifted.  The original claim is amended
because a selected local-index column can itself be a US-listed ETF (EWJ,
EWY, EWH, MCHI, FXI) and is then shifted like any US-timed factor. -/
theorem get_X_lag_alignment (F : Panel) (tkr c : String) (hwf : F.WF)
    (hreg : infer_region tkr ∈ asiaList)
    (hc : c ∈ (get_X_for_ticker F tkr).colNames) :
    (c ∈ US_TIMED_FACTORS →
      (0 < F.dates.length → cellAt (get_X_for_ticker F tkr) c 0 = none) ∧
      (∀ i, i + 1 < F.dates.length →
        cellAt (get_X_for_ticker F tkr) c (i + 1) = cellAt F c i)) ∧
    (c ∉ US_TIMED_FACTORS →
      ∀ i, cellAt (get_X_for_ticker F tkr) c i = cellAt F c i) := by
  have hsel : c ∈ selectCols (infer_region tkr) F.colNames :=
    (get_X_colNames_sublist F tkr).subset hc
  have havail : c ∈ F.colNames := selectCols_sub_avail hsel
  have hlen : (F.colVals c).length = F.dates.length := colVals_length_of_WF hwf havail
  have hXv := get_X_colVals hc
  constructor
  · intro hu
    have hval : (get_X_for_ticker F tkr).colVals c = shift1 (F.colVals c) := by
      rw [hXv]; unfold laggedColVals; rw [if_pos ⟨hreg, hu⟩]
    constructor
    · intro hpos
      unfold cellAt
      rw [hval]
      refine shift1_getD_zero ?_
      intro hnil
      rw [hnil] at hlen
      simp at hlen
      omega
    · intro i hi
      unfold cellAt
      rw [hval]
      exact shift1_getD_succ (by omega)
  · intro hu
    have hval : (get_X_for_ticker F tkr).colVals c = F.colVals c := by
      rw [hXv]; unfold laggedColVals
      rw [if_neg (by intro h2; exact hu h2.2)]
    intro i
    unfold cellAt
    rw [hval]

/-- Concrete panel for claim C1: a CN design matrix whose selected local
index is the US-listed ETF MCHI (seven dates so the shifted column keeps
coverage above 0.85). -/
def cxF1 : Panel :=
  ⟨[0, 1, 2, 3, 4, 5, 6],
   [("MCHI", [some 1, some 2, some 3, some 4, some 5, some 6, some 7]),
    ("CNY=X", [some 10, some 20, some 30, some 40, some 50, some 60, some 70])]⟩

/-- Counterexample to claim C1 as stated: for the CN ticker 600519.SS the
selected local-index column is MCHI, which is US-timed, and its design
matrix value at date position 1 differs from the source panel value there:
the local-index column IS shifted. -/
theorem local_index_etf_shifted_cex :
    firstAvail (IDX_PREF "CN") cxF1.colNames = ["MCHI"] ∧
    infer_region "600519.SS" = "CN" ∧
    "MCHI" ∈ (get_X_for_ticker cxF1 "600519.SS").colNames ∧
    cellAt (get_X_for_ticker cxF1 "600519.SS") "MCHI" 1 ≠ cellAt cxF1 "MCHI" 1 := by
  decide

/-- C1 witness: the amended theorem evaluated on cxF1, for the shifted
US-timed index column and the unshifted currency column. -/
theorem get_X_lag_alignment_witness :
    cellAt (get_X_for_ticker cxF1 "600519.SS") "MCHI" 0 = none ∧
    cellAt (get_X_for_ticker cxF1 "600519.SS") "MCHI" 2 = cellAt cxF1 "MCHI" 1 ∧
    cellAt (get_X_for_ticker cxF1 "600519.SS") "CNY=X" 1 = cellAt cxF1 "CNY=X" 1 :=
  ⟨((get_X_lag_alignment cxF1 "600519.SS" "MCHI" (by decide) (by decide)
      (by decide)).1 (by decide)).1 (by decide),
   ((get_X_lag_alignment cxF1 "600519.SS" "MCHI" (by decide) (by decide)
      (by decide)).1 (by decide)).2 1 (by decide),
   (get_X_lag_alignment cxF1 "600519.SS" "CNY=X" (by decide) (by decide)
      (by decide)).2 (by decide) 1⟩

-- ---------------------------------------------------------------------
-- Claim C6: the 0.85 coverage filter
-- ---------------------------------------------------------------------

/-- Claim C6: the design matrix contains exactly those selected columns
whose fraction of non-missing values after any lag shift is at least 0.85
(over a nonempty index; pandas drops every column of an empty frame), and
the kept columns appear in the original selection order. -/
theorem coverage_filter_spec (F : Panel) (tkr c : String)
    (hc : c ∈ selectCols (infer_region tkr) F.colNames) :
    (get_X_for_ticker F tkr).colNames.Sublist
      (selectCols (infer_region tkr) F.colNames) ∧
    (c ∈ (get_X_for_ticker F tkr).colNames ↔
      0 < F.dates.length ∧
      85 * F.dates.length ≤ 100 * countSome (laggedColVals F (infer_region tkr) c)) :=
  ⟨get_X_colNames_sublist F tkr, get_X_mem_iff hc⟩

/-- Concrete panel for claim C6: after the lag shift MCHI keeps coverage
9/10 and is retained, while CNY=X has coverage 3/10 and is dropped. -/
def wtF6 : Panel :=
  ⟨[0, 1, 2, 3, 4, 5, 6, 7, 8, 9],
   [("MCHI", [some 1, some 1, some 1, some 1, some 1, some 1, some 1, some 1,
      some 1, some 1]),
    ("CNY=X", [some 1, some 1, some 1, none, none, none, none, none, none, none])]⟩

/-- C6 witness: a kept column at coverage 0.9 and a dropped one at 0.3. -/
theorem coverage_filter_spec_witness :
    "MCHI" ∈ (get_X_for_ticker wtF6 "600519.SS").colNames ∧
    "CNY=X" ∉ (get_X_for_ticker wtF6 "600519.SS").colNames :=
  ⟨(coverage_filter_spec wtF6 "600519.SS" "MCHI" (by decide)).2.mpr (by decide),
   fun h => absurd ((coverage_filter_spec wtF6 "600519.SS" "CNY=X" (by decide)).2.mp h)
     (by decide)⟩

-- ---------------------------------------------------------------------
-- Claim C7: column-count bound and the missing HK currency slot
-- ---------------------------------------------------------------------

/-- Claim C7: a design matrix never has more columns than one local index
plus one local currency plus the global factors present in the panel; for
region HK, which has no currency preference list, the bound tightens to
one and no currency column ever appears. -/
theorem design_matrix_column_bound (F : Panel) (tkr : String) :
    (get_X_for_ticker F tkr).colNames.length ≤
      2 + (GLOBAL_FACTORS.filter (fun g => F.colNames.contains g)).length ∧
    (infer_region tkr = "HK" →
      (get_X_for_ticker F tkr).colNames.length ≤
        1 + (GLOBAL_FACTORS.filter (fun g => F.colNames.contains g)).length ∧
      ∀ c ∈ (get_X_for_ticker F tkr).colNames, c ∉ ["JPY=X", "KRW=X", "CNY=X"]) := by
  have hsub := (get_X_colNames_sublist F tkr).length_le
  have hsel : (selectCols (infer_region tkr) F.colNames).length =
      (firstAvail (IDX_PREF (infer_region tkr)) F.colNames).length +
      (firstAvail (FX_PREF (infer_region tkr)) F.colNames).length +
      (GLOBAL_FACTORS.filter (fun g => F.colNames.contains g)).length := by
    unfold selectCols
    rw [List.length_append, List.length_append]
  have h1 := firstAvail_length (IDX_PREF (infer_region tkr)) F.colNames
  have h2 := firstAvail_length (FX_PREF (infer_region tkr)) F.colNames
  constructor
  · omega
  · intro hhk
    constructor
    · have hfx : firstAvail (FX_PREF (infer_region tkr)) F.colNames = [] := by
        rw [hhk]; rfl
      rw [hfx] at hsel
      rw [List.length_nil] at hsel
      omega
    · intro c hc
      have hmem : c ∈ selectCols (infer_region tkr) F.colNames :=
        (get_X_colNames_sublist F tkr).subset hc
      unfold selectCols at hmem
      rw [hhk] at hmem
      rcases List.mem_append.mp hmem with h | h
      · rcases List.mem_append.mp h with h | h
        · have := firstAvail_subset h
          have : c = "^HSI" ∨ c = "EWH" := by simpa [IDX_PREF] using this
          rcases this with rfl | rfl <;> decide
        · have := firstAvail_subset h
          simp [FX_PREF] at this
      · have := List.of_mem_filter h
        have hg : c ∈ GLOBAL_FACTORS := List.mem_of_mem_filter h
        have : c = "^VIX" ∨ c = "^TNX" ∨ c = "CL=F" ∨ c = "HG=F" := by
          simpa [GLOBAL_FACTORS] using hg
        rcases this with rfl | rfl | rfl | rfl <;> decide

/-- Concrete panel for claim C7: an HK ticker with a local index, a
foreign currency column and one global factor available. -/
def wtF7 : Panel :=
  ⟨[0, 1],
   [("^HSI", [some 1, some 1]), ("JPY=X", [some 1, some 1]),
    ("^VIX", [some 1, some 1])]⟩

/-- C7 witness: the bound and the HK currency-slot absence at 0700.HK. -/
theorem design_matrix_column_bound_witness :
    (get_X_for_ticker wtF7 "0700.HK").colNames.length ≤
      2 + (GLOBAL_FACTORS.filter (fun g => wtF7.colNames.contains g)).length ∧
    ∀ c ∈ (get_X_for_ticker wtF7 "0700.HK").colNames,
      c ∉ ["JPY=X", "KRW=X", "CNY=X"] :=
  ⟨(design_matrix_column_bound wtF7 "0700.HK").1,
   ((design_matrix_column_bound wtF7 "0700.HK").2 (by decide)).2⟩

-- ---------------------------------------------------------------------
-- Claims C4 and C10: scenario scaling
-- ---------------------------------------------------------------------

theorem lookupA_map_graph {l : List String} {k : String} (g : String → Val)
    (hk : k ∈ l) : lookupA k (l.map fun c => (c, g c)) = some (g k) := by
  induction l with
  | nil => simp at hk
  | cons c rest ih =>
    by_cases hc : c = k
    · subst hc
      simp [lookupA]
    · rcases List.mem_cons.mp hk with h | h
      · exact absurd h.symm hc
      · simpa [lookupA, hc] using ih h

theorem lookupA_map_snd {k : String} (f : Val → Val) (l : List (String × Val)) :
    lookupA k (l.map fun p => (p.1, f p.2)) = (lookupA k l).map f := by
  induction l with
  | nil => simp [lookupA]
  | cons p rest ih =>
    by_cases hp : p.1 = k
    · simp [lookupA, hp]
    · simpa [lookupA, hp] using ih

theorem scen_scaler_of_avg (size : ℚ) {F : Panel} {shock : String} {a : ℚ}
    (havg : (lookupA shock (avg_moves F shock)).getD (some 1) = some a) :
    scen_scaler F shock size = if a = 0 then some 1 else some (size / a) := by
  unfold scen_scaler
  rw [havg]

/-- Claim C4: for a panel containing the shock factor whose stress-day
average move is the number a, the scenario is the raw stress-day average
vector when a is exactly zero (scale factor 1.0), and otherwise every
returned value is the raw average times shock_size over a; in particular
an average of 0.10 with shock_size 0.20 doubles every value. -/
theorem scenario_scaling (F : Panel) (shock : String) (size a : ℚ)
    (hmem : shock ∈ F.colNames)
    (havg : (lookupA shock (avg_moves F shock)).getD (some 1) = some a) :
    (a = 0 → generate_coherent_scenario F shock size = avg_moves F shock) ∧
    (a ≠ 0 → generate_coherent_scenario F shock size =
      (avg_moves F shock).map (fun p => (p.1, p.2.map (fun mv => mv * (size / a))))) := by
  have hsc := scen_scaler_of_avg size havg
  constructor
  · intro h0
    rw [if_pos h0] at hsc
    unfold generate_coherent_scenario
    rw [if_pos hmem, hsc]
    have hid : ∀ p ∈ avg_moves F shock, (p.1, scale_val p.2 (some 1)) = p := by
      rintro ⟨c, m⟩ _
      cases m <;> simp [scale_val]
    rw [List.map_congr_left hid]
    simp
  · intro hne
    rw [if_neg hne] at hsc
    unfold generate_coherent_scenario
    rw [if_pos hmem, hsc]
    refine List.map_congr_left ?_
    rintro ⟨c, m⟩ _
    cases m <;> simp [scale_val]

/-- Concrete panel for claim C4: stress-day averages 0.10 for VIX and 0.03
for oil; with shock_size 0.20 both double. -/
def wtF4 : Panel :=
  ⟨[0], [("^VIX", [some (1/10)]), ("CL=F", [some (3/100)])]⟩

/-- C4 witness: the scaling evaluated on wtF4 with the average 0.10 and
shock_size 0.20; every value is exactly double its raw average. -/
theorem scenario_scaling_witness :
    generate_coherent_scenario wtF4 "^VIX" (1/5) =
      [("^VIX", some (1/5)), ("CL=F", some (3/50))] := by
  have hmem : "^VIX" ∈ wtF4.colNames := by simp [wtF4, Panel.colNames]
  have havg : (lookupA "^VIX" (avg_moves wtF4 "^VIX")).getD (some 1) = some (1/10) := by
    simp [avg_moves, wtF4, Panel.colNames, stressDates, dropnaCol, quantile98, sortQ,
      insertQ, Panel.colVals, lookupA, List.range_succ, meanOpt, cellAt]
  have h := (scenario_scaling wtF4 "^VIX" (1/5) (1/10) hmem havg).2 (by norm_num)
  rw [h]
  have hav : avg_moves wtF4 "^VIX" = [("^VIX", some (1/10)), ("CL=F", some (3/100))] := by
    simp [avg_moves, wtF4, Panel.colNames, stressDates, dropnaCol, quantile98, sortQ,
      insertQ, Panel.colVals, lookupA, List.range_succ, meanOpt, cellAt]
  rw [hav]
  norm_num

/-- Concrete panel for claim C10, with a nonzero stress-day average. -/
def wtF10 : Panel :=
  ⟨[0], [("^VIX", [some (1/10)]), ("CL=F", [some (3/100)])]⟩

/-- Claim C10: when the shock factor is present with nonzero stress-day
average move, the returned scenario maps the shock factor itself to
exactly the requested shock_size. -/
theorem scenario_shock_target (F : Panel) (shock : String) (size a : ℚ)
    (hmem : shock ∈ F.colNames)
    (havg : (lookupA shock (avg_moves F shock)).getD (some 1) = some a)
    (hne : a ≠ 0) :
    lookupA shock ( generate_coherent_scenario F shock size) = some (some size) := by
  have hsc := scen_scaler_of_avg size havg
  rw [if_neg hne] at hsc
  unfold generate_coherent_scenario
  rw [if_pos hmem]
  have hvals : lookupA shock (avg_moves F shock) = some (some a) := by
    unfold avg_moves
    rw [lookupA_map_graph _ hmem]
    unfold avg_moves at havg
    rw [lookupA_map_graph _ hmem] at havg
    simpa using havg
  rw [lookupA_map_snd (fun m => scale_val m (scen_scaler F shock size)), hvals]
  rw [hsc]
  simp [scale_val]
  rw [mul_comm, div_mul_cancel₀ _ hne]

/-- C10 witness: target 0.20 with average 0.10 gives exactly 0.20 for the
shock factor entry. -/
theorem scenario_shock_target_witness :
    lookupA "^VIX" ( generate_coherent_scenario wtF10 "^VIX" (1/5)) =
      some (some (1/5)) :=
  scenario_shock_target wtF10 "^VIX" (1/5) (1/10)
    (by simp [wtF10, Panel.colNames])
    (by simp [avg_moves, wtF10, Panel.colNames, stressDates, dropnaCol, quantile98,
      sortQ, insertQ, Panel.colVals, lookupA, List.range_succ, meanOpt, cellAt])
    (by norm_num)

-- ---------------------------------------------------------------------
-- Lemmas on the rolling regression machinery
-- ---------------------------------------------------------------------

theorem lookupA_insertA_self {β : Type} (m : List (String × β)) (k : String) (v : β) :
    lookupA k (insertA m k v) = some v := by
  induction m with
  | nil => simp [insertA, lookupA]
  | cons p rest ih =>
    by_cases hp : p.1 = k
    · simp [insertA, hp, lookupA]
    · simp [insertA, hp, lookupA, ih]

theorem lookupA_insertA_ne {β : Type} (m : List (String × β)) (k k2 : String) (v : β)
    (hne : k2 ≠ k) : lookupA k (insertA m k2 v) = lookupA k m := by
  have hne2 : k ≠ k2 := fun h => hne h.symm
  induction m with
  | nil => simp [insertA, lookupA, hne]
  | cons p rest ih =>
    by_cases hp : p.1 = k2
    · have hpk : p.1 ≠ k := by rw [hp]; exact hne
      simp [insertA, hp, lookupA, hne, hpk]
    · by_cases hk : p.1 = k
      · simp [insertA, hp, lookupA, hk, hne2]
      · simp [insertA, hp, lookupA, hk, ih]

theorem getD_range_map (w m k : Nat) (hk : k < m) :
    ((List.range m).map (fun j => w + j)).getD k 0 = w + k := by
  rw [List.getD_eq_getElem?_getD, List.getElem?_map, List.getElem?_range hk]
  rfl

theorem fitLoop_ok {fit : Fit} (hfit : ∀ a b, ∃ r, fit a b = Except.ok r)
    (Xrows : List (List Val)) (yvals : List Val) (xcols : List String)
    (com : List Nat) (w : Nat) (is : List Nat) :
    ∃ rs, fitLoop fit Xrows yvals xcols com w is = Except.ok rs ∧
      rs.length = is.length ∧
      ∀ k, k < is.length → (rs.getD k (0, [])).1 = com.getD (is.getD k 0) 0 := by
  induction is with
  | nil => exact ⟨[], rfl, rfl, by intro k hk; simp at hk⟩
  | cons i is2 ih =>
    rcases hfit (trainSlice Xrows (i - w) i) (trainSlice yvals (i - w) i) with ⟨cb, hcb⟩
    rcases ih with ⟨rs, h1, h2, h3⟩
    refine ⟨(com.getD i 0, xcols.zip cb.1 ++ [("Intercept", cb.2)]) :: rs, ?_, ?_, ?_⟩
    · unfold fitLoop
      rw [hcb, h1]
    · simp [h2]
    · intro k hk
      cases k with
      | zero => simp
      | succ k2 =>
        simp only [List.getD_cons_succ]
        exact h3 k2 (by simpa using hk)

theorem rollingOne_ok {E : RiskEngine} {fit : Fit}
    (hfit : ∀ a b, ∃ r, fit a b = Except.ok r) (tkr : String) :
    ∃ r, rollingOne E fit tkr = Except.ok r := by
  unfold rollingOne
  by_cases h1 : infer_region tkr = "OTHER"
  · rw [if_pos h1]; exact ⟨none, rfl⟩
  rw [if_neg h1]
  by_cases h2 : (alignedDates E tkr).length < E.window
  · rw [if_pos h2]; exact ⟨none, rfl⟩
  rw [if_neg h2]
  rcases fitLoop_ok hfit (alignedXrows E tkr) (alignedYvals E tkr)
      (get_X_for_ticker E.factor_rets tkr).colNames (alignedDates E tkr) E.window
      ((List.range ((alignedDates E tkr).length - E.window)).map
        (fun k => E.window + k)) with ⟨rs, hrs, _, _⟩
  rw [hrs]
  show ∃ r, (if rs.isEmpty = true then Except.ok none else Except.ok (some rs)) =
    Except.ok r
  by_cases he : rs.isEmpty = true
  · rw [if_pos he]; exact ⟨none, rfl⟩
  · rw [if_neg he]; exact ⟨some rs, rfl⟩

/-- An asset with at most window-many aligned observations is skipped:
either the explicit length guard fires, or the loop range [window, n) is
empty, no row is produced, and the asset is not stored. -/
theorem rollingOne_skip (E : RiskEngine) (fit : Fit) (tkr : String)
    (h : (alignedDates E tkr).length ≤ E.window) :
    rollingOne E fit tkr = Except.ok none := by
  unfold rollingOne
  by_cases h1 : infer_region tkr = "OTHER"
  · rw [if_pos h1]
  rw [if_neg h1]
  by_cases h2 : (alignedDates E tkr).length < E.window
  · rw [if_pos h2]
  rw [if_neg h2]
  have hz : (alignedDates E tkr).length - E.window = 0 := by omega
  rw [hz]
  rfl

/-- An asset of a recognised region with more than window-many aligned
observations produces, under a never-failing fit, exactly n - window rows,
the k-th labeled with the aligned date at position window + k. -/
theorem rollingOne_rows (E : RiskEngine) {fit : Fit} (tkr : String)
    (hfit : ∀ a b, ∃ r, fit a b = Except.ok r)
    (hreg : infer_region tkr ≠ "OTHER")
    (h : E.window < (alignedDates E tkr).length) :
    ∃ rs, rollingOne E fit tkr = Except.ok (some rs) ∧
      rs.length = (alignedDates E tkr).length - E.window ∧
      ∀ k, k < (alignedDates E tkr).length - E.window →
        (rs.getD k (0, [])).1 = (alignedDates E tkr).getD (E.window + k) 0 := by
  unfold rollingOne
  rw [if_neg hreg, if_neg (by omega)]
  rcases fitLoop_ok hfit (alignedXrows E tkr) (alignedYvals E tkr)
      (get_X_for_ticker E.factor_rets tkr).colNames (alignedDates E tkr) E.window
      ((List.range ((alignedDates E tkr).length - E.window)).map
        (fun k => E.window + k)) with ⟨rs, hrs, hlen, hdate⟩
  rw [List.length_map, List.length_range] at hlen
  have hne : rs.isEmpty = false := by
    cases rs with
    | nil => simp at hlen; omega
    | cons a t => rfl
  refine ⟨rs, ?_, hlen, ?_⟩
  · rw [hrs]
    show (if rs.isEmpty = true then Except.ok none else Except.ok (some rs)) =
      Except.ok (some rs)
    simp [hne]
  · intro k hk
    have := hdate k (by simp [hlen]; omega)
    rwa [getD_range_map _ _ _ hk] at this

theorem goRun_ok {E : RiskEngine} {fit : Fit}
    (hfit : ∀ a b, ∃ r, fit a b = Except.ok r) :
    ∀ (cols : List String) (m : List (String × BetaSeries)) (cnt : Nat),
      ∃ out, goRun E fit cols m cnt = Except.ok out := by
  intro cols
  induction cols with
  | nil => intro m cnt; exact ⟨(m, cnt), rfl⟩
  | cons t rest ih =>
    intro m cnt
    rcases rollingOne_ok hfit t with ⟨r, hr⟩
    cases r with
    | none =>
      rcases ih m cnt with ⟨out, hout⟩
      refine ⟨out, ?_⟩
      unfold goRun
      rw [hr]
      exact hout
    | some bs =>
      rcases ih (insertA m t bs) (cnt + 1) with ⟨out, hout⟩
      refine ⟨out, ?_⟩
      unfold goRun
      rw [hr]
      exact hout

theorem goRun_lookup_notmem {E : RiskEngine} {fit : Fit} {tkr : String} :
    ∀ (cols : List String) (m : List (String × BetaSeries)) (cnt : Nat) out,
      goRun E fit cols m cnt = Except.ok out → tkr ∉ cols →
      lookupA tkr out.1 = lookupA tkr m := by
  intro cols
  induction cols with
  | nil =>
    intro m cnt out hout _
    unfold goRun at hout
    cases hout
    rfl
  | cons t rest ih =>
    intro m cnt out hout hnot
    have ht : t ≠ tkr := fun h => hnot (h ▸ List.mem_cons_self t rest)
    have hrest : tkr ∉ rest := fun h => hnot (List.mem_cons_of_mem t h)
    unfold goRun at hout
    cases hr : rollingOne E fit t with
    | error e => rw [hr] at hout; cases hout
    | ok r =>
      rw [hr] at hout
      cases r with
      | none => exact ih m cnt out hout hrest
      | some bs =>
        rw [ih (insertA m t bs) (cnt + 1) out hout hrest]
        exact lookupA_insertA_ne m tkr t bs ht

theorem goRun_lookup_mem {E : RiskEngine} {fit : Fit} {tkr : String} :
    ∀ (cols : List String) (m : List (String × BetaSeries)) (cnt : Nat) out,
      goRun E fit cols m cnt = Except.ok out → tkr ∈ cols → cols.Nodup →
      ((rollingOne E fit tkr = Except.ok none →
        lookupA tkr out.1 = lookupA tkr m) ∧
       (∀ bs, rollingOne E fit tkr = Except.ok (some bs) →
        lookupA tkr out.1 = some bs)) := by
  intro cols
  induction cols with
  | nil => intro m cnt out _ hmem; simp at hmem
  | cons t rest ih =>
    intro m cnt out hout hmem hnd
    unfold goRun at hout
    by_cases ht : t = tkr
    · subst ht
      have hrest : t ∉ rest := (List.nodup_cons.mp hnd).1
      constructor
      · intro hnone
        rw [hnone] at hout
        exact goRun_lookup_notmem rest m cnt out hout hrest
      · intro bs hsome
        rw [hsome] at hout
        rw [goRun_lookup_notmem rest (insertA m t bs) (cnt + 1) out hout hrest]
        exact lookupA_insertA_self m t bs
    · have hmem2 : tkr ∈ rest := by
        rcases List.mem_cons.mp hmem with h | h
        · exact absurd h.symm ht
        · exact h
      have hnd2 : rest.Nodup := (List.nodup_cons.mp hnd).2
      cases hr : rollingOne E fit t with
      | error e => rw [hr] at hout; cases hout
      | ok r =>
        rw [hr] at hout
        cases r with
        | none => exact ih m cnt out hout hmem2 hnd2
        | some bs =>
          rcases ih (insertA m t bs) (cnt + 1) out hout hmem2 hnd2 with ⟨hA, hB⟩
          constructor
          · intro hnone
            rw [hA hnone]
            exact lookupA_insertA_ne m tkr t bs (fun h => ht h)
          · exact hB

-- ---------------------------------------------------------------------
-- Claim C2: rolling-window row counts and date labels
-- ---------------------------------------------------------------------

/-- Claim C2 (amended): for an asset of a recognised region with n aligned
observations and window w, the asset is absent from the betas mapping
whenever n is at most w (in particular, exactly w aligned observations
produce no beta row, since the loop range [w, n) is then empty); when n
exceeds w the asset has exactly n - w rows, row k labeled with the aligned
date at position w + k; 300 aligned observations with w = 252 give exactly
48 rows. -/
theorem rolling_row_count (s f : Panel) (w : Nat) (fit : Fit) (tkr : String)
    (hfit : ∀ a b, ∃ r, fit a b = Except.ok r)
    (hnd : s.colNames.Nodup) (hmem : tkr ∈ s.colNames)
    (hreg : infer_region tkr ≠ "OTHER") :
    ∃ E2, run_rolling_regression (RiskEngine.init s f w) fit = Except.ok E2 ∧
      (((alignedDates (RiskEngine.init s f w) tkr).length ≤ w →
        lookupA tkr E2.betas = none) ∧
       (w < (alignedDates (RiskEngine.init s f w) tkr).length →
        ∃ bs, lookupA tkr E2.betas = some bs ∧
          bs.length = (alignedDates (RiskEngine.init s f w) tkr).length - w ∧
          ∀ k, k < bs.length →
            (bs.getD k (0, [])).1 =
              (alignedDates (RiskEngine.init s f w) tkr).getD (w + k) 0) ∧
       ((alignedDates (RiskEngine.init s f w) tkr).length = 300 → w = 252 →
        ∃ bs, lookupA tkr E2.betas = some bs ∧ bs.length = 48)) := by
  rcases goRun_ok (E := RiskEngine.init s f w) hfit s.colNames [] 0 with ⟨out, hout⟩
  have hrun : run_rolling_regression (RiskEngine.init s f w) fit =
      Except.ok { RiskEngine.init s f w with
        betas := out.1, model_success_count := out.2 } := by
    unfold run_rolling_regression
    rw [show (RiskEngine.init s f w).stock_rets.colNames = s.colNames from rfl]
    rw [show (RiskEngine.init s f w).betas = [] from rfl]
    rw [show (RiskEngine.init s f w).model_success_count = 0 from rfl]
    rw [hout]
  have hlk := goRun_lookup_mem s.colNames [] 0 out hout hmem hnd
  refine ⟨_, hrun, ?_, ?_, ?_⟩
  · intro hle
    have hro := rollingOne_skip (RiskEngine.init s f w) fit tkr (by simpa using hle)
    exact (hlk.1 hro).trans rfl
  · intro hlt
    rcases rollingOne_rows (RiskEngine.init s f w) tkr hfit hreg (by simpa using hlt)
      with ⟨rs, hro, hlen, hdate⟩
    refine ⟨rs, hlk.2 rs hro, by simpa using hlen, ?_⟩
    intro k hk
    exact hdate k (by omega)
  · intro h300 h252
    subst h252
    have hlt : (252 : Nat) < (alignedDates (RiskEngine.init s f 252) tkr).length := by
      omega
    rcases rollingOne_rows (RiskEngine.init s f 252) tkr hfit hreg (by simpa using hlt)
      with ⟨rs, hro, hlen, _⟩
    exact ⟨rs, hlk.2 rs hro, by rw [hlen, h300]; rfl⟩

/-- Stock and factor panels for the C2 counterexample: exactly one aligned
observation with window 1. -/
def cxS2 : Panel := ⟨[0], [("A.T", [some 1])]⟩

def cxG2 : Panel := ⟨[0], [("^N225", [some 1])]⟩

/-- A fit that always succeeds, for the C2 theorems. -/
def fit2 : Fit := fun _ _ => Except.ok ([], 0)

/-- Counterexample to claim C2 as stated: with exactly window-many (one)
aligned observations the claim promises exactly one beta row, but the run
stores nothing for the asset at all. -/
theorem exact_window_single_row_cex :
    (alignedDates (RiskEngine.init cxS2 cxG2 1) "A.T").length =
      (RiskEngine.init cxS2 cxG2 1).window ∧
    (run_rolling_regression (RiskEngine.init cxS2 cxG2 1) fit2).map
      (fun e => lookupA "A.T" e.betas) = Except.ok none := ⟨rfl, rfl⟩

/-- Stock and factor panels for the C2 witness: three aligned observations
with window 1 give two rows dated at the aligned positions 1 and 2. -/
def wtS2 : Panel := ⟨[0, 1, 2], [("A.T", [some 1, some 1, some 1])]⟩

def wtG2 : Panel := ⟨[0, 1, 2], [("^N225", [some 1, some 1, some 1])]⟩

/-- C2 witness: the amended row-count theorem at a concrete three-period
panel with window 1. -/
theorem rolling_row_count_witness :
    ∃ E2, run_rolling_regression (RiskEngine.init wtS2 wtG2 1) fit2 = Except.ok E2 ∧
      (((alignedDates (RiskEngine.init wtS2 wtG2 1) "A.T").length ≤ 1 →
        lookupA "A.T" E2.betas = none) ∧
       (1 < (alignedDates (RiskEngine.init wtS2 wtG2 1) "A.T").length →
        ∃ bs, lookupA "A.T" E2.betas = some bs ∧
          bs.length = (alignedDates (RiskEngine.init wtS2 wtG2 1) "A.T").length - 1 ∧
          ∀ k, k < bs.length →
            (bs.getD k (0, [])).1 =
              (alignedDates (RiskEngine.init wtS2 wtG2 1) "A.T").getD (1 + k) 0) ∧
       ((alignedDates (RiskEngine.init wtS2 wtG2 1) "A.T").length = 300 → 1 = 252 →
        ∃ bs, lookupA "A.T" E2.betas = some bs ∧ bs.length = 48)) :=
  rolling_row_count wtS2 wtG2 1 fit2 "A.T" (fun _ _ => ⟨([], 0), rfl⟩)
    (by decide) (by decide) (by decide)

-- ---------------------------------------------------------------------
-- Claim C3: a raised fit propagates across the batch
-- ---------------------------------------------------------------------

/-- Two-asset stock panel for the C3 evaluation. -/
def cxS3 : Panel := ⟨[0, 1], [("A.T", [some 1, some 1]), ("B.T", [some 1, some 1])]⟩

def cxG3 : Panel := ⟨[0, 1], [("^N225", [some 1, some 1])]⟩

/-- A fit that raises, modelling a sklearn exception on a degenerate
training window. -/
def fitErr3 : Fit := fun _ _ => Except.error "singular matrix"

def fitOk3 : Fit := fun _ _ => Except.ok ([], 0)

/-- Claim C3 evaluation at the failing input: run_rolling_regression has
no exception handler, so a fit that raises on the first asset A.T aborts
the whole batch, and the second asset B.T, which a succeeding fit would
process, is never reached.  This contradicts the claimed isolation. -/
theorem fit_error_propagates_eval :
    run_rolling_regression (RiskEngine.init cxS3 cxG3 1) fitErr3 =
      Except.error "singular matrix" ∧
    (run_rolling_regression (RiskEngine.init cxS3 cxG3 1) fitOk3).map
      (fun e => e.betas.map (·.1)) = Except.ok ["A.T", "B.T"] := ⟨rfl, rfl⟩

-- ---------------------------------------------------------------------
-- Claim C5: empty-input behaviour
-- ---------------------------------------------------------------------

theorem rollingOne_empty_dates (E : RiskEngine) (fit : Fit) (tkr : String)
    (hd : E.factor_rets.dates = []) : rollingOne E fit tkr = Except.ok none := by
  have ha : alignedDates E tkr = [] := by
    unfold alignedDates validAllDates
    rw [show (get_X_for_ticker E.factor_rets tkr).dates = E.factor_rets.dates from rfl,
      hd]
    simp
  unfold rollingOne
  by_cases h1 : infer_region tkr = "OTHER"
  · rw [if_pos h1]
  rw [if_neg h1, ha]
  by_cases hw : 0 < E.window
  · rw [if_pos (by simpa using hw)]
  · have hz : E.window = 0 := by omega
    rw [hz]
    rfl

/-- Claim C5 (amended): a missing shock factor yields an empty scenario
with no error; a stock panel with no columns leaves the engine unchanged
with an empty betas mapping; a factor panel with no columns and no rows (a
fully empty DataFrame, the data-loader failure shape) does the same.  The
original claim also covered a factor panel with no columns but a nonempty
date index, where a zero-column design matrix passes the dropna alignment
and reaches the fit — see the counterexample. -/
theorem empty_input_behavior :
    (∀ (F : Panel) (shock : String) (size : ℚ), shock ∉ F.colNames →
      generate_coherent_scenario F shock size = []) ∧
    (∀ (s f : Panel) (w : Nat) (fit : Fit), s.entries = [] →
      run_rolling_regression (RiskEngine.init s f w) fit =
        Except.ok (RiskEngine.init s f w)) ∧
    (∀ (s f : Panel) (w : Nat) (fit : Fit), f.entries = [] → f.dates = [] →
      run_rolling_regression (RiskEngine.init s f w) fit =
        Except.ok (RiskEngine.init s f w)) := by
  refine ⟨?_, ?_, ?_⟩
  · intro F shock size hmem
    unfold generate_coherent_scenario
    rw [if_neg hmem]
  · intro s f w fit hs
    have hc : (RiskEngine.init s f w).stock_rets.colNames = [] := by
      show s.colNames = []
      simp [Panel.colNames, hs]
    unfold run_rolling_regression
    rw [hc]
    rfl
  · intro s f w fit _hf hd
    have hall : ∀ tkr, rollingOne (RiskEngine.init s f w) fit tkr = Except.ok none :=
      fun tkr => rollingOne_empty_dates _ fit tkr hd
    have hgo : ∀ (cols : List String) m cnt,
        goRun (RiskEngine.init s f w) fit cols m cnt = Except.ok (m, cnt) := by
      intro cols
      induction cols with
      | nil => intro m cnt; rfl
      | cons t rest ih =>
        intro m cnt
        unfold goRun
        rw [hall t]
        exact ih m cnt
    unfold run_rolling_regression
    rw [hgo]

/-- Stock panel for the C5 counterexample: one eligible asset. -/
def cxS5 : Panel := ⟨[0, 1], [("A.T", [some 1, some 1])]⟩

/-- Factor panel for the C5 counterexample: a date index but no columns. -/
def cxG5 : Panel := ⟨[0, 1], []⟩

/-- A fit that raises, modelling what sklearn does on a zero-feature
design matrix. -/
def fitErr5 : Fit := fun _ _ => Except.error "zero features"

def fitOk5 : Fit := fun _ _ => Except.ok ([], 0)

/-- Counterexample to claim C5 as stated: with a factor panel that has no
columns but a nonempty date index, the zero-column design matrix keeps
every row through dropna, the asset aligns on two observations, and the
fit is reached: a raising fit aborts the run, and even a succeeding fit
yields a non-empty betas mapping — not the promised empty mapping. -/
theorem zero_factor_columns_cex :
    cxG5.entries = [] ∧
    run_rolling_regression (RiskEngine.init cxS5 cxG5 1) fitErr5 =
      Except.error "zero features" ∧
    (run_rolling_regression (RiskEngine.init cxS5 cxG5 1) fitOk5).map
      (fun e => e.betas.map (·.1)) = Except.ok ["A.T"] := ⟨rfl, rfl, rfl⟩

/-- Panels for the C5 witness. -/
def wtG5a : Panel := ⟨[0], [("CL=F", [some 1])]⟩

def wtS5b : Panel := ⟨[0, 1], []⟩

def wtG5b : Panel := ⟨[0, 1], [("^VIX", [some 1, some 1])]⟩

def wtS5c : Panel := ⟨[0], [("A.T", [some 1])]⟩

def wtG5c : Panel := ⟨[], []⟩

/-- C5 witness: the amended empty-input theorem at concrete inputs for
each of its three parts. -/
theorem empty_input_behavior_witness :
    generate_coherent_scenario wtG5a "^VIX" (1/5) = [] ∧
    run_rolling_regression (RiskEngine.init wtS5b wtG5b 3) fitOk5 =
      Except.ok (RiskEngine.init wtS5b wtG5b 3) ∧
    run_rolling_regression (RiskEngine.init wtS5c wtG5c 3) fitOk5 =
      Except.ok (RiskEngine.init wtS5c wtG5c 3) :=
  ⟨empty_input_behavior.1 wtG5a "^VIX" (1/5) (by decide),
   empty_input_behavior.2.1 wtS5b wtG5b 3 fitOk5 rfl,
   empty_input_behavior.2.2 wtS5c wtG5c 3 fitOk5 rfl rfl⟩

-- ---------------------------------------------------------------------
-- Claim C9: the input panels are read-only to the core
-- ---------------------------------------------------------------------

/-- Claim C9: in the state-passing embedding of the engine, a successful
run_rolling_regression updates only the betas mapping and the success
counter, leaving the stored stock-return panel, factor-return panel and
window unchanged; get_X_for_ticker and generate_coherent_scenario write no
engine attribute at all (the source applies the lag shift to a .copy() of
the selected columns). -/
theorem core_preserves_input_panels (E : RiskEngine) (fit : Fit)
    (tkr shock : String) (size : ℚ) :
    (∀ E2, run_rolling_regression E fit = Except.ok E2 →
      E2.stock_rets = E.stock_rets ∧ E2.factor_rets = E.factor_rets ∧
      E2.window = E.window) ∧
    (get_X_state E tkr).2 = E ∧
    (generate_scenario_state E shock size).2 = E := by
  refine ⟨?_, rfl, rfl⟩
  intro E2 h
  unfold run_rolling_regression at h
  cases hg : goRun E fit E.stock_rets.colNames E.betas E.model_success_count with
  | error e =>
    rw [hg] at h
    cases h
  | ok mc =>
    rw [hg] at h
    cases h
    exact ⟨rfl, rfl, rfl⟩

/-- Engine for the C9 witness. -/
def wtE9 : RiskEngine :=
  RiskEngine.init ⟨[0], [("7203.T", [some 1])]⟩ ⟨[0], [("^N225", [some 1])]⟩ 252

def fitOk9 : Fit := fun _ _ => Except.ok ([], 0)

/-- C9 witness: a concrete successful run leaves both stored panels and
the window unchanged. -/
theorem core_preserves_input_panels_witness :
    ∃ E2, run_rolling_regression wtE9 fitOk9 = Except.ok E2 ∧
      E2.stock_rets = wtE9.stock_rets ∧ E2.factor_rets = wtE9.factor_rets ∧
      (get_X_state wtE9 "7203.T").2 = wtE9 := by
  have h := core_preserves_input_panels wtE9 fitOk9 "7203.T" "^VIX" 1
  have hrun : run_rolling_regression wtE9 fitOk9 = Except.ok wtE9 := rfl
  exact ⟨wtE9, hrun, (h.1 wtE9 hrun).1, (h.1 wtE9 hrun).2.1, h.2.1⟩

end RiskDash
